import Mathlib

/-!
Verification of the core state-update and draw logic of the Datacmd
terminal dashboard (Go sources under `widgets/` and `loader/`).

Modelling conventions used throughout:
* Go `int` is modelled as `Int` (or as `Nat` where the source value is
  non-negative by construction); Go's truncating `int(...)` conversion of
  a real quantity is `goTrunc`.
* Go `float64` arithmetic is modelled exactly over `ℚ`; every claim below
  is evaluated at inputs where exact rational arithmetic and IEEE double
  arithmetic agree.
* Terminal colors (`cell.Color`) are abstracted to numeric codes (`Nat`);
  only equality or distinctness of colors matters to the claims.
* Display strings (table cell texts, labels, category names) are
  abstracted to numeric identifiers, since the Go code never branches on
  their contents, only on slice/map lengths.
* A Go function returning `error` is modelled as returning `Option E`
  for an enumeration `E` of its error causes; `none` is a nil error.
-/

namespace Datacmd

/-- Terminal cell color, abstracted to its numeric code. -/
abbrev Color := Nat

/-! ### Funnel and PieChart value updates (funnel.go, PieChart source) -/

/-- Error causes of `Funnel.Values` and `PieChart.Values`
(the Go code returns distinct error strings for each). -/
inductive SegErr where
  | emptyValues
  | emptyColors
  | negativeValue
  deriving DecidableEq, Repr

/-- State of the `Funnel` widget (funnel.go): segment values, segment
colors, and the cached sum of the values. -/
structure Funnel where
  values : List Int
  colors : List Color
  total : Int
  deriving DecidableEq, Repr

/-- The accumulation loop inside `Funnel.Values` (funnel.go lines 52-57):
walks the values, erroring at the first negative one and otherwise adding
it to `total`. The state passed in already holds the new `values`,
`colors` and `total = 0`, exactly as in the source. -/
def funnelAccum : Funnel → List Int → Funnel × Option SegErr
  | s, [] => (s, none)
  | s, v :: vs =>
    if v < 0 then (s, some .negativeValue)
    else funnelAccum { s with total := s.total + v } vs

/-- `Funnel.Values` (funnel.go lines 38-60): rejects empty `values` or
empty `colors` before touching the state, then assigns `values` and
`colors`, resets `total` to 0 and accumulates it, erroring at the first
negative value. -/
def Funnel.Values (f : Funnel) (values : List Int) (colors : List Color) :
    Funnel × Option SegErr :=
  if values.length = 0 then (f, some .emptyValues)
  else if colors.length = 0 then (f, some .emptyColors)
  else funnelAccum { values := values, colors := colors, total := 0 } values

/-- State of the `PieChart` widget: identical fields to `Funnel`. -/
structure PieChart where
  values : List Int
  colors : List Color
  total : Int
  deriving DecidableEq, Repr

/-- The accumulation loop inside `PieChart.Values` (verbatim the same
code as the funnel's). -/
def pieAccum : PieChart → List Int → PieChart × Option SegErr
  | s, [] => (s, none)
  | s, v :: vs =>
    if v < 0 then (s, some .negativeValue)
    else pieAccum { s with total := s.total + v } vs

/-- `PieChart.Values`: verbatim the same logic as `Funnel.Values`. -/
def PieChart.Values (p : PieChart) (values : List Int) (colors : List Color) :
    PieChart × Option SegErr :=
  if values.length = 0 then (p, some .emptyValues)
  else if colors.length = 0 then (p, some .emptyColors)
  else pieAccum { values := values, colors := colors, total := 0 } values

/-! Helper lemmas about the accumulation loops. -/

lemma funnelAccum_values_colors (vs : List Int) (s : Funnel) :
    (funnelAccum s vs).1.values = s.values ∧ (funnelAccum s vs).1.colors = s.colors := by
  induction vs generalizing s with
  | nil => simp [funnelAccum]
  | cons v vs ih =>
    by_cases h : v < 0 <;> simp [funnelAccum, h]
    exact ih _

lemma funnelAccum_ok_iff (vs : List Int) (s : Funnel) :
    (funnelAccum s vs).2 = none ↔ ∀ v ∈ vs, 0 ≤ v := by
  induction vs generalizing s with
  | nil => simp [funnelAccum]
  | cons v vs ih =>
    by_cases h : v < 0
    · simp only [funnelAccum, if_pos h]
      constructor
      · intro hc
        exact absurd hc (by simp)
      · intro hc
        exact absurd (hc v (by simp)) (by omega)
    · simp only [funnelAccum, if_neg h, ih, List.mem_cons]
      constructor
      · intro hc w hw
        rcases hw with hw | hw
        · omega
        · exact hc w hw
      · intro hc w hw
        exact hc w (Or.inr hw)

lemma funnelAccum_ok_total (vs : List Int) (s : Funnel)
    (h : (funnelAccum s vs).2 = none) :
    (funnelAccum s vs).1.total = s.total + vs.sum := by
  induction vs generalizing s with
  | nil => simp [funnelAccum]
  | cons v vs ih =>
    by_cases hv : v < 0
    · simp [funnelAccum, hv] at h
    · simp only [funnelAccum, if_neg hv] at h ⊢
      rw [ih _ h]
      simp
      ring

lemma funnelAccum_err_total (vs : List Int) (s : Funnel)
    (h : (funnelAccum s vs).2 ≠ none) :
    (funnelAccum s vs).1.total = s.total + (vs.takeWhile (fun v => decide (0 ≤ v))).sum ∧
      (funnelAccum s vs).2 = some .negativeValue := by
  induction vs generalizing s with
  | nil => simp [funnelAccum] at h
  | cons v vs ih =>
    by_cases hv : v < 0
    · have hv' : ¬ (0 ≤ v) := by omega
      simp [funnelAccum, hv, List.takeWhile_cons, hv']
    · have hv' : (0 ≤ v) := by omega
      simp only [funnelAccum, if_neg hv] at h ⊢
      have := ih { s with total := s.total + v } h
      rw [List.takeWhile_cons]
      simp only [hv', decide_true_eq_true, if_pos, List.sum_cons]
      rw [this.1]
      refine ⟨by simp; ring, this.2⟩

lemma pieAccum_values_colors (vs : List Int) (s : PieChart) :
    (pieAccum s vs).1.values = s.values ∧ (pieAccum s vs).1.colors = s.colors := by
  induction vs generalizing s with
  | nil => simp [pieAccum]
  | cons v vs ih =>
    by_cases h : v < 0 <;> simp [pieAccum, h]
    exact ih _

lemma pieAccum_ok_iff (vs : List Int) (s : PieChart) :
    (pieAccum s vs).2 = none ↔ ∀ v ∈ vs, 0 ≤ v := by
  induction vs generalizing s with
  | nil => simp [pieAccum]
  | cons v vs ih =>
    by_cases h : v < 0
    · simp only [pieAccum, if_pos h]
      constructor
      · intro hc
        exact absurd hc (by simp)
      · intro hc
        exact absurd (hc v (by simp)) (by omega)
    · simp only [pieAccum, if_neg h, ih, List.mem_cons]
      constructor
      · intro hc w hw
        rcases hw with hw | hw
        · omega
        · exact hc w hw
      · intro hc w hw
        exact hc w (Or.inr hw)

lemma pieAccum_ok_total (vs : List Int) (s : PieChart)
    (h : (pieAccum s vs).2 = none) :
    (pieAccum s vs).1.total = s.total + vs.sum := by
  induction vs generalizing s with
  | nil => simp [pieAccum]
  | cons v vs ih =>
    by_cases hv : v < 0
    · simp [pieAccum, hv] at h
    · simp only [pieAccum, if_neg hv] at h ⊢
      rw [ih _ h]
      simp
      ring

lemma pieAccum_err_total (vs : List Int) (s : PieChart)
    (h : (pieAccum s vs).2 ≠ none) :
    (pieAccum s vs).1.total = s.total + (vs.takeWhile (fun v => decide (0 ≤ v))).sum ∧
      (pieAccum s vs).2 = some .negativeValue := by
  induction vs generalizing s with
  | nil => simp [pieAccum] at h
  | cons v vs ih =>
    by_cases hv : v < 0
    · have hv' : ¬ (0 ≤ v) := by omega
      simp [pieAccum, hv, List.takeWhile_cons, hv']
    · have hv' : (0 ≤ v) := by omega
      simp only [pieAccum, if_neg hv] at h ⊢
      have := ih { s with total := s.total + v } h
      rw [List.takeWhile_cons]
      simp only [hv', decide_true_eq_true, if_pos, List.sum_cons]
      rw [this.1]
      refine ⟨by simp; ring, this.2⟩

/-- C2: For every `Funnel.Values` / `PieChart.Values` call, the call
succeeds iff the values slice and the colors slice are both non-empty and
every value is ≥ 0; on success the widget's `total` equals the exact sum
of the values. -/
theorem values_success_iff_and_total (f : Funnel) (p : PieChart)
    (values : List Int) (colors : List Color) :
    ((f.Values values colors).2 = none ↔
      values ≠ [] ∧ colors ≠ [] ∧ ∀ v ∈ values, 0 ≤ v) ∧
    ((f.Values values colors).2 = none →
      (f.Values values colors).1.total = values.sum) ∧
    ((p.Values values colors).2 = none ↔
      values ≠ [] ∧ colors ≠ [] ∧ ∀ v ∈ values, 0 ≤ v) ∧
    ((p.Values values colors).2 = none →
      (p.Values values colors).1.total = values.sum) := by
  by_cases hv : values.length = 0
  · have : values = [] := List.length_eq_zero.mp hv
    subst this
    simp [Funnel.Values, PieChart.Values]
  · by_cases hc : colors.length = 0
    · have : colors = [] := List.length_eq_zero.mp hc
      subst this
      simp only [Funnel.Values, PieChart.Values, if_neg hv, if_pos rfl]
      simp
    · have hv' : values ≠ [] := by
        intro h
        exact hv (by simp [h])
      have hc' : colors ≠ [] := by
        intro h
        exact hc (by simp [h])
      simp only [Funnel.Values, PieChart.Values, if_neg hv, if_neg hc]
      refine ⟨?_, ?_, ?_, ?_⟩
      · rw [funnelAccum_ok_iff]
        simp [hv', hc']
      · intro h
        rw [funnelAccum_ok_total _ _ h]
        simp
      · rw [pieAccum_ok_iff]
        simp [hv', hc']
      · intro h
        rw [pieAccum_ok_total _ _ h]
        simp

/-- Witness for C2 at concrete inputs: values [2, 3] with colors [7]
succeed and set total = 5, for both widgets. -/
theorem values_success_iff_and_total_witness :
    (Funnel.Values ⟨[], [], 0⟩ [2, 3] [7]).2 = none ∧
    (Funnel.Values ⟨[], [], 0⟩ [2, 3] [7]).1.total = 5 ∧
    (PieChart.Values ⟨[], [], 0⟩ [2, 3] [7]).2 = none ∧
    (PieChart.Values ⟨[], [], 0⟩ [2, 3] [7]).1.total = 5 := by
  have h := values_success_iff_and_total ⟨[], [], 0⟩ ⟨[], [], 0⟩ [2, 3] [7]
  have hf : (Funnel.Values ⟨[], [], 0⟩ [2, 3] [7]).2 = none :=
    h.1.mpr ⟨by decide, by decide, by decide⟩
  have hp : (PieChart.Values ⟨[], [], 0⟩ [2, 3] [7]).2 = none :=
    h.2.2.1.mpr ⟨by decide, by decide, by decide⟩
  exact ⟨hf, (h.2.1 hf).trans (by decide), hp, (h.2.2.2 hp).trans (by decide)⟩

/-- C1 counterexample: a `Funnel.Values` call rejected for a negative
value does not leave the prior state intact.  Starting from the valid
state (values [1], colors [7], total 1), the rejected call
`Values [2, -1] [9]` returns the negative-value error yet leaves the
widget holding values [2, -1], colors [9] and the partial total 2. -/
theorem funnel_values_rejection_mutates :
    (Funnel.Values ⟨[1], [7], 1⟩ [2, -1] [9]).2 = some SegErr.negativeValue ∧
    (Funnel.Values ⟨[1], [7], 1⟩ [2, -1] [9]).1 ≠ ⟨[1], [7], 1⟩ ∧
    (Funnel.Values ⟨[1], [7], 1⟩ [2, -1] [9]).1 = ⟨[2, -1], [9], 2⟩ := by
  decide

/-- C1 amended: a `Funnel.Values` / `PieChart.Values` call rejected for
empty values or empty colors leaves the prior state intact; a call
rejected for a negative value instead overwrites `values` and `colors`
with the new slices and leaves `total` equal to the sum of the new values
strictly before the first negative one. -/
theorem values_rejection_state (f : Funnel) (p : PieChart)
    (values : List Int) (colors : List Color) :
    (values = [] ∨ colors = [] →
      (f.Values values colors).1 = f ∧ (f.Values values colors).2 ≠ none ∧
      (p.Values values colors).1 = p ∧ (p.Values values colors).2 ≠ none) ∧
    (values ≠ [] → colors ≠ [] → (f.Values values colors).2 ≠ none →
      (f.Values values colors).1 =
        ⟨values, colors, (values.takeWhile (fun v => decide (0 ≤ v))).sum⟩ ∧
      (p.Values values colors).1 =
        ⟨values, colors, (values.takeWhile (fun v => decide (0 ≤ v))).sum⟩) := by
  constructor
  · intro h
    rcases h with h | h
    · subst h
      simp [Funnel.Values, PieChart.Values]
    · subst h
      by_cases hv : values.length = 0
      · simp [Funnel.Values, PieChart.Values, hv]
      · simp [Funnel.Values, PieChart.Values, hv]
  · intro hv hc herr
    have hv0 : ¬ values.length = 0 := by simpa using hv
    have hc0 : ¬ colors.length = 0 := by simpa using hc
    simp only [Funnel.Values, PieChart.Values, if_neg hv0, if_neg hc0] at herr ⊢
    have hfp : (pieAccum { values := values, colors := colors, total := 0 } values).2 ≠ none := by
      intro h
      apply herr
      rw [funnelAccum_ok_iff] at *
      exact (pieAccum_ok_iff values _).mp h
    have h1 := funnelAccum_err_total values ⟨values, colors, 0⟩ herr
    have h2 := pieAccum_err_total values ⟨values, colors, 0⟩ hfp
    have hf1 := funnelAccum_values_colors values ⟨values, colors, 0⟩
    have hp1 := pieAccum_values_colors values ⟨values, colors, 0⟩
    constructor
    · cases hres : (funnelAccum ⟨values, colors, 0⟩ values).1
      rw [hres] at h1 hf1
      simp only [Funnel.mk.injEq]
      have := h1.1
      simp at hf1 this
      exact ⟨hf1.1, hf1.2, by omega⟩
    · cases hres : (pieAccum ⟨values, colors, 0⟩ values).1
      rw [hres] at h2 hp1
      simp only [PieChart.mk.injEq]
      have := h2.1
      simp at hp1 this
      exact ⟨hp1.1, hp1.2, by omega⟩

/-- Witness for C1 amended: an empty-values rejection preserves the
state and a negative-value rejection produces the described new state. -/
theorem values_rejection_state_witness :
    (Funnel.Values ⟨[4], [5], 4⟩ [] [6]).1 = ⟨[4], [5], 4⟩ ∧
    (Funnel.Values ⟨[4], [5], 4⟩ [2, -1, 3] [6]).1 = ⟨[2, -1, 3], [6], 2⟩ := by
  have h1 := (values_rejection_state ⟨[4], [5], 4⟩ ⟨[], [], 0⟩ [] [6]).1 (Or.inl rfl)
  have h2 := (values_rejection_state ⟨[4], [5], 4⟩ ⟨[], [], 0⟩ [2, -1, 3] [6]).2
    (by decide) (by decide) (by decide)
  exact ⟨h1.1, h2.1.trans (by decide)⟩

/-! ### Radar value updates (radar.go) -/

/-- `Values` (radar.go): the data map of the radar chart, a mapping from
category label (abstracted to a numeric id) to a `float64` magnitude
(modelled exactly over `ℚ`), plus the maximum possible value. -/
structure Values where
  Data : List (Nat × ℚ)
  Max : ℚ
  deriving DecidableEq

/-- Error causes of `Radar.SetValues` (radar.go lines 130-139). -/
inductive RadarErr where
  | nilOrTooFew
  | nonpositiveMax
  | outOfRange
  deriving DecidableEq, Repr

/-- State of the `Radar` widget relevant to `SetValues`: the stored data
(`nil` pointer modelled as `none`).  The color options do not interact
with the stored values. -/
structure Radar where
  values : Option Values
  deriving DecidableEq

/-- `Radar.SetValues` (radar.go lines 126-151): rejects a nil map or one
with fewer than 3 entries, a non-positive `Max`, and any value outside
`[0, Max]`; only when all checks pass does it store the new values.
(The option-applying loop and `validate`, which always returns nil, do
not touch the stored values and are omitted.) -/
def Radar.SetValues (r : Radar) (vals : Option Values) : Radar × Option RadarErr :=
  match vals with
  | none => (r, some .nilOrTooFew)
  | some v =>
    if v.Data.length < 3 then (r, some .nilOrTooFew)
    else if v.Max ≤ 0 then (r, some .nonpositiveMax)
    else match v.Data.find? (fun q => decide (q.2 < 0) || decide (v.Max < q.2)) with
      | some _ => (r, some .outOfRange)
      | none => ({ values := some v }, none)

/-- C3: A `Radar.SetValues` call succeeds iff the value map is present
with at least 3 entries, `Max > 0`, and every value lies in `[0, Max]`;
when any of these fails the call errors and the stored values are
unchanged. -/
theorem radar_setValues_success_iff (r : Radar) (vals : Option Values) :
    ((r.SetValues vals).2 = none ↔
      ∃ v, vals = some v ∧ 3 ≤ v.Data.length ∧ 0 < v.Max ∧
        ∀ q ∈ v.Data, 0 ≤ q.2 ∧ q.2 ≤ v.Max) ∧
    ((r.SetValues vals).2 ≠ none → (r.SetValues vals).1 = r) := by
  match vals with
  | none => simp [Radar.SetValues]
  | some v =>
    by_cases h3 : v.Data.length < 3
    · simp only [Radar.SetValues, if_pos h3]
      constructor
      · simp only [Option.some.injEq, reduceCtorEq, false_iff]
        rintro ⟨w, hw, hlen, -⟩
        cases hw
        omega
      · intro _
        trivial
    · by_cases hm : v.Max ≤ 0
      · simp only [Radar.SetValues, if_neg h3, if_pos hm]
        constructor
        · simp only [reduceCtorEq, false_iff]
          rintro ⟨w, hw, -, hpos, -⟩
          cases hw
          exact absurd hpos (by simpa using hm)
        · intro _
          trivial
      · rcases hfind : v.Data.find? (fun q => decide (q.2 < 0) || decide (v.Max < q.2)) with - | q
        · have hall := List.find?_eq_none.mp hfind
          simp only [Radar.SetValues, if_neg h3, if_neg hm, hfind]
          constructor
          · simp only [true_iff]
            refine ⟨v, rfl, by omega, by simpa using hm, ?_⟩
            intro q hq
            have := hall q hq
            simp at this
            exact ⟨by linarith [this.1], this.2⟩
          · intro h
            exact absurd rfl h
        · have hqmem := List.find?_some hfind
          have hqin := List.mem_of_find?_eq_some hfind
          simp only [Radar.SetValues, if_neg h3, if_neg hm, hfind]
          constructor
          · simp only [reduceCtorEq, false_iff]
            rintro ⟨w, hw, -, -, hrange⟩
            cases hw
            have := hrange q hqin
            rcases Bool.or_eq_true_iff.mp hqmem with hb | hb
            · have : q.2 < 0 := by simpa using hb
              linarith [(hrange q hqin).1]
            · have : v.Max < q.2 := by simpa using hb
              linarith [(hrange q hqin).2]
          · intro _
            trivial

/-- Witness for C3: a concrete successful call (3 entries, Max 5, values
in range) and a concrete failed call whose state is untouched. -/
theorem radar_setValues_success_iff_witness :
    (Radar.SetValues ⟨none⟩ (some ⟨[(0, 1), (1, 2), (2, 3)], 5⟩)).2 = none ∧
    (Radar.SetValues ⟨some ⟨[(0, 1), (1, 2), (2, 3)], 5⟩⟩ (some ⟨[(0, 7), (1, 2), (2, 3)], 5⟩)).1 =
      ⟨some ⟨[(0, 1), (1, 2), (2, 3)], 5⟩⟩ := by
  constructor
  · exact (radar_setValues_success_iff ⟨none⟩ _).1.mpr
      ⟨⟨[(0, 1), (1, 2), (2, 3)], 5⟩, rfl, by decide, by decide, by decide⟩
  · exact (radar_setValues_success_iff ⟨some ⟨[(0, 1), (1, 2), (2, 3)], 5⟩⟩ _).2 (by decide)

/-! ### Dynamic grid layout (loader.go, dynamicGridLayout lines 436-474) -/

/-- Widget kinds appearing in a dashboard configuration.  The Go code
switches on the config's free-form `type` string; the four kinds that the
switch names get width 30 and every other kind falls to the default. -/
inductive WidgetKind where
  | pie
  | donut
  | gauge
  | radar
  | table
  | histogram
  | scatter
  | funnel
  | line
  | gaugeLike
  deriving DecidableEq, Repr

/-- The width weight the layout assigns to a widget
(loader.go lines 439-445). -/
def widgetWidth : WidgetKind → Nat
  | .pie | .donut | .gauge | .radar => 30
  | _ => 50

/-- The row-packing loop of `dynamicGridLayout` (loader.go lines
438-466): widths are accumulated into the current row unless adding one
would push it past 100 while the row is non-empty, in which case the row
is flushed and the width starts a new row; the trailing non-empty row is
appended at the end. -/
def packRows : List Nat → List Nat → Nat → List (List Nat)
  | [], currentRow, _ =>
    if currentRow.isEmpty then [] else [currentRow]
  | w :: ws, currentRow, currentWidth =>
    if 100 < currentWidth + w ∧ ¬ currentRow.isEmpty then
      currentRow :: packRows ws [w] w
    else
      packRows ws (currentRow ++ [w]) (currentWidth + w)

/-- `dynamicGridLayout`, restricted to its width computation: maps each
widget's kind to its width weight and packs the widths into rows. -/
def dynamicGridLayout (ks : List WidgetKind) : List (List Nat) :=
  packRows (ks.map widgetWidth) [] 0

lemma widgetWidth_le_100 (k : WidgetKind) : widgetWidth k ≤ 100 := by
  cases k <;> simp [widgetWidth]

lemma packRows_sum_le (ws : List Nat) :
    ∀ cur cw, (∀ w ∈ ws, w ≤ 100) → cur.sum = cw → cw ≤ 100 →
      ∀ row ∈ packRows ws cur cw, row.sum ≤ 100 := by
  induction ws with
  | nil =>
    intro cur cw _ hsum hle row hrow
    by_cases hc : cur.isEmpty
    · simp [packRows, hc] at hrow
    · simp [packRows, hc] at hrow
      subst hrow
      omega
  | cons w ws ih =>
    intro cur cw hall hsum hle row hrow
    have hw : w ≤ 100 := hall w (by simp)
    have hall' : ∀ u ∈ ws, u ≤ 100 := fun u hu => hall u (by simp [hu])
    by_cases hsplit : 100 < cw + w ∧ ¬ cur.isEmpty
    · simp only [packRows, if_pos hsplit, List.mem_cons] at hrow
      rcases hrow with hrow | hrow
      · subst hrow
        omega
      · exact ih [w] w hall' (by simp) hw row hrow
    · simp only [packRows, if_neg hsplit] at hrow
      have hcw : cw + w ≤ 100 := by
        rcases not_and_or.mp hsplit with h | h
        · omega
        · have hnil : cur = [] := List.isEmpty_iff.mp (not_not.mp h)
          subst hnil
          simp at hsum
          omega
      exact ih (cur ++ [w]) (cw + w) hall' (by simp [hsum]) hcw row hrow

/-- C4: every widget is assigned width 30 when its kind is one of
pie, donut, gauge, radar and width 50 otherwise; the packed rows never
sum past 100; and kinds alternating widths 50, 30, 50, 30, 50 pack into
rows [50, 30], [50, 30], [50]. -/
theorem layout_width_assignment_and_row_bound :
    (∀ k, widgetWidth k =
      if k = .pie ∨ k = .donut ∨ k = .gauge ∨ k = .radar then 30 else 50) ∧
    (∀ ks : List WidgetKind, ∀ row ∈ dynamicGridLayout ks, row.sum ≤ 100) ∧
    dynamicGridLayout [.table, .pie, .scatter, .radar, .histogram] =
      [[50, 30], [50, 30], [50]] := by
  refine ⟨?_, ?_, by decide⟩
  · intro k
    cases k <;> decide
  · intro ks row hrow
    exact packRows_sum_le (ks.map widgetWidth) [] 0
      (by
        intro w hw
        rcases List.mem_map.mp hw with ⟨k, -, hk⟩
        exact hk ▸ widgetWidth_le_100 k)
      rfl (by omega) row hrow

/-- Witness for C4: instantiates the row-sum bound at a concrete layout
and row. -/
theorem layout_width_assignment_and_row_bound_witness :
    [50, 30].sum ≤ 100 := by
  have h := layout_width_assignment_and_row_bound.2.1
    [.table, .pie, .scatter, .radar, .histogram] [50, 30]
  exact h (by decide)

/-! ### Table construction, pagination and draw (table.go) -/

/-- A table cell (table.go lines 19-21); its display text is abstracted
to a numeric id, since the code never branches on text contents. -/
structure Cell where
  text : Nat
  deriving DecidableEq, Repr

/-- Table options relevant to the claims (table.go tableOptions);
the color options cannot affect construction, pagination or layout and
are omitted. -/
structure tableOptions where
  minColWidth : Int
  rowsPerPage : Int
  deriving DecidableEq, Repr

/-- Default table options (table.go newTableOptions):
minColWidth 10, rowsPerPage 5. -/
def newTableOptions : tableOptions := ⟨10, 5⟩

/-- The `RowsPerPage` option (table.go lines 390-396): only positive
counts take effect. -/
def RowsPerPage (count : Int) (o : tableOptions) : tableOptions :=
  if 0 < count then { o with rowsPerPage := count } else o

/-- A rectangle in terminal-cell coordinates (image.Rectangle). -/
structure Rect where
  minX : Int
  minY : Int
  maxX : Int
  maxY : Int
  deriving DecidableEq, Repr

/-- The zero rectangle (Go zero value of image.Rectangle). -/
def zeroRect : Rect := ⟨0, 0, 0, 0⟩

/-- State of the `Table` widget (table.go lines 31-56): header cells, row
cells, pagination fields, and the clickable button rectangles recomputed
by every draw. -/
structure Table where
  headers : List Cell
  rows : List (List Cell)
  currentPage : Int
  rowsPerPage : Int
  numPages : Int
  prevButtonRect : Rect
  nextButtonRect : Rect
  deriving DecidableEq, Repr

/-- The column count `NewTable` and `Draw` derive (table.go lines 62-67
and 130-133): the header length when a header exists, else the first
row's length, else 0. -/
def tableNumCols (headers : List Cell) (rows : List (List Cell)) : Nat :=
  if 0 < headers.length then headers.length
  else if 0 < rows.length then (rows.head?.getD []).length
  else 0

/-- `NewTable` (table.go lines 61-120): rejects any row whose length
differs from the derived column count, then derives the page count as
ceil(numRows / rowsPerPage) (exact model of the float round-trip, which
agrees at all feasible sizes), forcing one page when rows exist but the
ceiling came out 0.  Button construction (button.New with non-empty
label) cannot fail and is external; both rectangles start at zero. -/
def NewTable (headers : List Cell) (rows : List (List Cell))
    (opts : List (tableOptions → tableOptions)) : Option Table :=
  if rows.all (fun row => row.length == tableNumCols headers rows) then
    let opt := opts.foldl (fun o f => f o) newTableOptions
    let numRows : Int := rows.length
    let numPages0 : Int :=
      if 0 < numRows ∧ 0 < opt.rowsPerPage then
        (numRows + opt.rowsPerPage - 1).tdiv opt.rowsPerPage
      else 0
    let numPages := if numPages0 = 0 ∧ 0 < numRows then 1 else numPages0
    some ⟨headers, rows, 0, opt.rowsPerPage, numPages, zeroRect, zeroRect⟩
  else none

/-- `Table.nextPage` (table.go lines 269-277). -/
def Table.nextPage (t : Table) : Table :=
  if t.numPages ≤ 1 then t
  else if t.numPages ≤ t.currentPage + 1 then t
  else { t with currentPage := t.currentPage + 1 }

/-- `Table.prevPage` (table.go lines 280-288). -/
def Table.prevPage (t : Table) : Table :=
  if t.numPages ≤ 1 then t
  else if t.currentPage ≤ 0 then t
  else { t with currentPage := t.currentPage - 1 }

/-- C5: `NewTable` succeeds iff every row's length equals the header
length when a non-empty header exists, or the first row's length
otherwise. -/
theorem newTable_success_iff (headers : List Cell) (rows : List (List Cell))
    (opts : List (tableOptions → tableOptions)) :
    (NewTable headers rows opts).isSome = true ↔
      (if headers ≠ [] then ∀ row ∈ rows, row.length = headers.length
       else ∀ row ∈ rows, row.length = (rows.head?.getD []).length) := by
  have hbase : (NewTable headers rows opts).isSome = true ↔
      ∀ row ∈ rows, row.length = tableNumCols headers rows := by
    by_cases h : rows.all (fun row => row.length == tableNumCols headers rows)
    · simp only [NewTable, if_pos h, Option.isSome_some, true_iff]
      intro row hrow
      have := List.all_eq_true.mp h row hrow
      simpa using this
    · simp only [NewTable, if_neg h, Option.isSome_none, Bool.false_eq_true, false_iff]
      intro hc
      apply h
      rw [List.all_eq_true]
      intro row hrow
      simpa using hc row hrow
  rw [hbase]
  by_cases hh : headers = []
  · subst hh
    simp only [ne_eq, not_true_eq_false, if_false, tableNumCols]
    by_cases hr : rows = []
    · subst hr
      simp
    · have hlen : 0 < rows.length := List.length_pos.mpr hr
      simp [hlen]
  · have hlen : 0 < headers.length := List.length_pos.mpr hh
    simp [tableNumCols, hlen, hh]

/-- Witness for C5: a concrete header/rows pair with matching column
counts constructs successfully. -/
theorem newTable_success_iff_witness :
    (NewTable [⟨0⟩, ⟨1⟩] [[⟨2⟩, ⟨3⟩], [⟨4⟩, ⟨5⟩]] []).isSome = true := by
  refine (newTable_success_iff [⟨0⟩, ⟨1⟩] [[⟨2⟩, ⟨3⟩], [⟨4⟩, ⟨5⟩]] []).mpr ?_
  decide

/-- The zero-valued table, used only as the default for `Option.getD`
below (the options there are proved to be `some`). -/
def emptyTable : Table := ⟨[], [], 0, 0, 0, zeroRect, zeroRect⟩

/-- C6: a table built with the default rowsPerPage = 5 over 12 rows has
3 pages; next-page from page 0 goes to page 1; next-page from the last
page is a no-op; prev-page from page 0 is a no-op. -/
theorem table_pagination_example :
    (NewTable [] (List.replicate 12 [Cell.mk 0]) []).isSome = true ∧
    ((NewTable [] (List.replicate 12 [Cell.mk 0]) []).getD emptyTable).numPages = 3 ∧
    ((NewTable [] (List.replicate 12 [Cell.mk 0]) []).getD emptyTable).rowsPerPage = 5 ∧
    (((NewTable [] (List.replicate 12 [Cell.mk 0]) []).getD emptyTable).nextPage).currentPage = 1 ∧
    ((((NewTable [] (List.replicate 12 [Cell.mk 0]) []).getD emptyTable).nextPage).nextPage).currentPage = 2 ∧
    ((((NewTable [] (List.replicate 12 [Cell.mk 0]) []).getD emptyTable).nextPage).nextPage).nextPage =
      (((NewTable [] (List.replicate 12 [Cell.mk 0]) []).getD emptyTable).nextPage).nextPage ∧
    (((NewTable [] (List.replicate 12 [Cell.mk 0]) []).getD emptyTable).prevPage) =
      ((NewTable [] (List.replicate 12 [Cell.mk 0]) []).getD emptyTable) := by
  decide

/-- Error causes of `Table.Draw` (table.go lines 134-142). -/
inductive TableDrawErr where
  | noColumns
  | noSpace
  deriving DecidableEq, Repr

/-- What one `Table.Draw` pass paints, at the granularity at which the
code decides it: the header row (when present), the visible slice of
rows, the fixed column width, the pagination-indicator numbers and the
button rectangles (when numPages > 1), and whether the bottom row is
cleared instead.  Painting of the individual characters by drawRow and
draw.Text is a pure function of these fields. -/
structure TableDrawOut where
  headerRow : Option (List Cell)
  visible : List (List Cell)
  colWidth : Int
  pageInfo : Option (Int × Int)
  prevRect : Option Rect
  nextRect : Option Rect
  clearedBottom : Bool
  deriving DecidableEq, Repr

/-- The page clamp inside `Table.Draw` (table.go lines 161-168): when
the current page starts at or past the end of the rows while rows exist,
the current page is reset to the last page. -/
def Table.clampPage (t : Table) : Int :=
  if (t.rows.length : Int) ≤ t.currentPage * t.rowsPerPage ∧ 0 < t.rows.length then
    t.numPages - 1
  else t.currentPage

/-- `Table.Draw` (table.go lines 124-220).  The source computes
startIndex/endIndex, clamps the page and recomputes them; here the
clamped page is computed first and the indices once, which yields the
same values.  The buttons' texts " < Prev" and "Next > " have width 7,
giving the two rectangles.  The mutations the source performs on the
widget (currentPage, prevButtonRect, nextButtonRect) are returned in the
second component. -/
def Table.Draw (t : Table) (ar : Rect) : Except TableDrawErr TableDrawOut × Table :=
  let numCols : Int := if 0 < t.headers.length then (t.headers.length : Int)
    else if 0 < t.rows.length then ((t.rows.head?.getD []).length : Int) else 0
  if numCols = 0 then (.error .noColumns, t)
  else
    let colWidth := (ar.maxX - ar.minX).tdiv numCols
    if colWidth = 0 then (.error .noSpace, t)
    else
      let cp := t.clampPage
      let startIndex := cp * t.rowsPerPage
      let endIndex0 := startIndex + t.rowsPerPage
      let endIndex := if (t.rows.length : Int) < endIndex0 then (t.rows.length : Int) else endIndex0
      let visible := (t.rows.drop startIndex.toNat).take (endIndex - startIndex).toNat
      let headerRow := if 0 < t.headers.length then some t.headers else none
      if 1 < t.numPages then
        let pRect : Rect := ⟨ar.minX, ar.maxY - 1, ar.minX + 7, ar.maxY⟩
        let nRect : Rect := ⟨ar.maxX - 7, ar.maxY - 1, ar.maxX, ar.maxY⟩
        (.ok ⟨headerRow, visible, colWidth, some (cp + 1, t.numPages),
              some pRect, some nRect, false⟩,
         { t with currentPage := cp, prevButtonRect := pRect, nextButtonRect := nRect })
      else
        (.ok ⟨headerRow, visible, colWidth, none, none, none, true⟩,
         { t with currentPage := cp })

lemma clampPage_currentPage_update (t : Table) (pr nr : Rect) :
    Table.clampPage { t with currentPage := t.clampPage, prevButtonRect := pr,
                             nextButtonRect := nr } = t.clampPage ∧
    Table.clampPage { t with currentPage := t.clampPage } = t.clampPage := by
  unfold Table.clampPage
  by_cases h : (t.rows.length : Int) ≤ t.currentPage * t.rowsPerPage ∧ 0 < t.rows.length
  · simp only [if_pos h]
    constructor <;> (split <;> rfl)
  · simp only [if_neg h]
    exact ⟨trivial, trivial⟩

/-- A `Table.Draw` immediately repeated on the state it returned yields
the identical output and state. -/
lemma tableDraw_idem (t : Table) (ar : Rect) :
    Table.Draw (Table.Draw t ar).2 ar = Table.Draw t ar := by
  unfold Table.Draw
  by_cases h1 : (if 0 < t.headers.length then (t.headers.length : Int)
    else if 0 < t.rows.length then ((t.rows.head?.getD []).length : Int) else 0) = 0
  · simp only [if_pos h1]
  · simp only [if_neg h1]
    by_cases h2 : (ar.maxX - ar.minX).tdiv
      (if 0 < t.headers.length then (t.headers.length : Int)
        else if 0 < t.rows.length then ((t.rows.head?.getD []).length : Int) else 0) = 0
    · simp only [if_neg h1, if_pos h2]
    · simp only [if_neg h2]
      by_cases h3 : 1 < t.numPages
      · simp only [if_pos h3, (clampPage_currentPage_update t
          ⟨ar.minX, ar.maxY - 1, ar.minX + 7, ar.maxY⟩
          ⟨ar.maxX - 7, ar.maxY - 1, ar.maxX, ar.maxY⟩).1]
        simp only [if_neg h1, if_neg h2, if_pos h3]
      · simp only [if_neg h3, (clampPage_currentPage_update t zeroRect zeroRect).2]
        simp only [if_neg h1, if_neg h2, if_neg h3]

/-! ### Braille sub-cell canvas: setDot accumulation
(histogram widget source and scatter.go lines 94-127) -/

/-- One `setDot` invocation: braille-grid x, braille-grid y, and the
color recorded for the containing cell.  (Scatter's single-color variant
passes its fixed widget color.) -/
abbrev DotCall := Nat × Nat × Color

/-- The terminal cell containing a braille dot
(setDot: cellX = bx/2, cellY = by/4). -/
def cellOfCall (c : DotCall) : Nat × Nat := (c.1 / 2, c.2.1 / 4)

/-- The braille mask bit of a dot within its cell
(setDot's switch on subX = bx%2, subY = by%4). -/
def brailleDot (bx dotY : Nat) : Nat :=
  match bx % 2, dotY % 4 with
  | 0, 0 => 0x01
  | 0, 1 => 0x02
  | 0, 2 => 0x04
  | 0, 3 => 0x40
  | 1, 0 => 0x08
  | 1, 1 => 0x10
  | 1, 2 => 0x20
  | _, _ => 0x80

/-- Per-cell glyph and color accumulators: the `brailleMap` and
`colorMap` of the histogram's Draw (scatter's Draw keeps only the glyph
map and one fixed color). -/
structure BrailleCells where
  glyph : Nat × Nat → Option Nat
  color : Nat × Nat → Option Color

/-- The empty maps every draw starts from. -/
def emptyCells : BrailleCells := ⟨fun _ => none, fun _ => none⟩

/-- `setDot` (histogram source lines 107-138): ORs the dot's mask into
the containing cell's glyph, seeding an untouched cell with the empty
braille rune 0x2800, and overwrites the cell's color. -/
def setDot (st : BrailleCells) (c : DotCall) : BrailleCells :=
  let p := cellOfCall c
  let mask := brailleDot c.1 c.2.1
  { glyph := fun q => if q = p then
      (match st.glyph p with
       | some r => some (r ||| mask)
       | none => some (0x2800 ||| mask))
      else st.glyph q,
    color := fun q => if q = p then some c.2.2 else st.color q }

/-- All the `setDot` calls of one draw pass, applied in order. -/
def applyDots (calls : List DotCall) : BrailleCells :=
  calls.foldl setDot emptyCells

/-- The bitwise OR of the mask bits of every call targeting cell `p`. -/
def cellMask (calls : List DotCall) (p : Nat × Nat) : Nat :=
  calls.foldl (fun acc c => if cellOfCall c = p then acc ||| brailleDot c.1 c.2.1 else acc) 0

/-- The color of the last call targeting cell `p`, if any. -/
def lastColorAt (calls : List DotCall) (p : Nat × Nat) : Option Color :=
  calls.foldl (fun acc c => if cellOfCall c = p then some c.2.2 else acc) none

/-- Whether any call targets cell `p`. -/
def touchesCell (calls : List DotCall) (p : Nat × Nat) : Bool :=
  calls.any (fun c => cellOfCall c = p)

lemma cellMask_go_untouched (l : List DotCall) (p : Nat × Nat)
    (h : touchesCell l p = false) :
    ∀ acc : Nat,
      l.foldl (fun acc c => if cellOfCall c = p then acc ||| brailleDot c.1 c.2.1 else acc) acc
        = acc := by
  induction l with
  | nil =>
    intro acc
    rfl
  | cons c l ih =>
    intro acc
    simp only [touchesCell, List.any_cons, Bool.or_eq_false_iff] at h
    have hc : ¬ cellOfCall c = p := by simpa using h.1
    rw [List.foldl_cons, if_neg hc]
    exact ih h.2 acc

lemma lastColorAt_go_untouched (l : List DotCall) (p : Nat × Nat)
    (h : touchesCell l p = false) :
    ∀ acc : Option Color,
      l.foldl (fun acc c => if cellOfCall c = p then some c.2.2 else acc) acc = acc := by
  induction l with
  | nil =>
    intro acc
    rfl
  | cons c l ih =>
    intro acc
    simp only [touchesCell, List.any_cons, Bool.or_eq_false_iff] at h
    have hc : ¬ cellOfCall c = p := by simpa using h.1
    rw [List.foldl_cons, if_neg hc]
    exact ih h.2 acc

lemma applyDots_concat (l : List DotCall) (c : DotCall) :
    applyDots (l ++ [c]) = setDot (applyDots l) c := by
  simp [applyDots, List.foldl_append]

lemma cellMask_concat (l : List DotCall) (c : DotCall) (p : Nat × Nat) :
    cellMask (l ++ [c]) p =
      if cellOfCall c = p then cellMask l p ||| brailleDot c.1 c.2.1 else cellMask l p := by
  by_cases h : cellOfCall c = p <;> simp [cellMask, List.foldl_append, h]

lemma lastColorAt_concat (l : List DotCall) (c : DotCall) (p : Nat × Nat) :
    lastColorAt (l ++ [c]) p =
      if cellOfCall c = p then some c.2.2 else lastColorAt l p := by
  by_cases h : cellOfCall c = p <;> simp [lastColorAt, List.foldl_append, h]

lemma touchesCell_concat (l : List DotCall) (c : DotCall) (p : Nat × Nat) :
    touchesCell (l ++ [c]) p = (touchesCell l p || decide (cellOfCall c = p)) := by
  simp [touchesCell, List.any_append]

/-- The joint characterization of the accumulated glyph and color maps
after any sequence of `setDot` calls. -/
lemma applyDots_spec (calls : List DotCall) (p : Nat × Nat) :
    (applyDots calls).glyph p =
      (if touchesCell calls p then some (0x2800 ||| cellMask calls p) else none) ∧
    (applyDots calls).color p = lastColorAt calls p := by
  induction calls using List.reverseRecOn with
  | nil => simp [applyDots, emptyCells, touchesCell, cellMask, lastColorAt]
  | append_singleton l c ih =>
    rw [applyDots_concat, cellMask_concat, lastColorAt_concat, touchesCell_concat]
    by_cases hc : cellOfCall c = p
    · simp only [hc, if_pos rfl, decide_true_eq_true, Bool.or_true, if_pos]
      constructor
      · show (if p = cellOfCall c then _ else _) = _
        rw [if_pos hc.symm, hc]
        by_cases ht : touchesCell l p
        · rw [ih.1, if_pos ht]
          simp only [Option.some.injEq]
          exact Nat.lor_assoc 0x2800 (cellMask l p) (brailleDot c.1 c.2.1)
        · rw [ih.1, if_neg ht]
          have h0 : cellMask l p = 0 := by
            have := cellMask_go_untouched l p (by simpa using ht) 0
            simpa [cellMask] using this
          simp [h0]
      · show (if p = cellOfCall c then _ else _) = _
        rw [if_pos hc.symm]
    · have hc' : ¬ p = cellOfCall c := fun h => hc h.symm
      simp only [if_neg hc, decide_eq_true_eq, hc, decide_false_eq_false, Bool.or_false]
      constructor
      · show (if p = cellOfCall c then _ else _) = _
        rw [if_neg hc']
        exact ih.1
      · show (if p = cellOfCall c then _ else _) = _
        rw [if_neg hc']
        exact ih.2

/-- C7: over any sequence of `setDot` calls during one draw, each cell's
glyph is the empty braille rune ORed with the bit of every dot set inside
that cell, and each cell's color is the color of the last `setDot` call
that targeted it (later writers win, no blending); untouched cells hold
nothing. -/
theorem setDot_mask_or_and_last_color_wins (calls : List DotCall) (p : Nat × Nat) :
    (applyDots calls).glyph p =
      (if touchesCell calls p then some (0x2800 ||| cellMask calls p) else none) ∧
    (applyDots calls).color p = lastColorAt calls p :=
  applyDots_spec calls p

/-! ### Histogram (histogram widget source) -/

/-- Numeric code standing for cell.ColorNumber(42), the default bar
color of the histogram. -/
def histGreen : Color := 42

/-- Numeric code standing for cell.ColorRed, the default alert color.
Only its distinctness from `histGreen` matters to the claims. -/
def colorRed : Color := 2

/-- State of the `Histogram` widget (source lines 16-25).  `min` and
`max` are the recorded domain bounds (unused by Draw). -/
structure Histogram where
  bins : List Int
  min : ℚ
  max : ℚ
  labels : List Nat
  barColor : Color
  alertBin : Int
  alertCol : Color
  deriving DecidableEq

/-- `NewHistogram` (source lines 28-34): greenish bars, alert index -1,
red alert color; remaining fields are Go zero values. -/
def NewHistogram : Histogram := ⟨[], 0, 0, [], histGreen, -1, colorRed⟩

/-- `Histogram.SetBins` (source lines 37-47): stores every argument as
given and returns nil; there is no validation of any kind. -/
def Histogram.SetBins (h : Histogram) (bins : List Int) (mn mx : ℚ)
    (labels : List Nat) (alertBin : Int) : Histogram × Option Unit :=
  ({ h with bins := bins, min := mn, max := mx, labels := labels,
            alertBin := alertBin }, none)

/-- C10: `Histogram.SetBins` performs no validation and returns nil for
every input — negative bin counts, min > max, a labels slice of any
length and any alert index (in range or not) are accepted and stored as
given, while the color fields are untouched. -/
theorem setBins_no_validation (h : Histogram) (bins : List Int) (mn mx : ℚ)
    (labels : List Nat) (alertBin : Int) :
    (h.SetBins bins mn mx labels alertBin).2 = none ∧
    (h.SetBins bins mn mx labels alertBin).1 =
      ⟨bins, mn, mx, labels, h.barColor, alertBin, h.alertCol⟩ := by
  constructor <;> rfl

/-- The inner double loop of one bar of `Histogram.Draw` (source lines
158-170): for each x in the bar width and y in the bar height, the dot
at (startX + x, originY - 1 - y) is set with the bar's color, subject to
the source's bounds check `bx < brailleW && by >= 0`. -/
def barDots (brailleW originY startX : Int) (widthN heightN : Nat)
    (col : Color) : List DotCall :=
  (List.range widthN).flatMap (fun x =>
    (List.range heightN).filterMap (fun y =>
      if startX + (x : Int) < brailleW ∧ 0 ≤ originY - 1 - (y : Int) then
        some ((startX + (x : Int)).toNat, (originY - 1 - (y : Int)).toNat, col)
      else none))

/-- The color `Histogram.Draw` selects for bin `i` (source lines
149-152): the alert color when `alertBin == i`, else the bar color. -/
def Histogram.binColor (h : Histogram) (i : Nat) : Color :=
  if h.alertBin = (i : Int) then h.alertCol else h.barColor

/-- The `setDot` calls one bin's bar contributes in `Histogram.Draw`
(source lines 144-171), factored out of the per-bin loop with the shared
geometry (plot size, max bin, bar width) recomputed verbatim.  The
source's two early returns (no bins, non-positive plot size) both paint
nothing and appear here as one merged guard; an out-of-range bin index
(impossible from DrawCalls) yields no dots.  The two real divisions
(`float64(plotW)/float64(barCount)` and
`float64(v)/float64(maxBin)*float64(plotH)`) are modelled exactly; a
negative bin value yields a non-positive height and hence no dots, as in
the source.  Loop order (bars left to right, x outer, y inner) is
preserved. -/
def Histogram.binDots (h : Histogram) (dx dy i : Nat) : List DotCall :=
  if h.bins.length = 0 ∨ (dx : Int) * 2 - 8 ≤ 0 ∨ (dy : Int) * 4 - 8 ≤ 0 then []
  else
    match h.bins.get? i with
    | none => []
    | some v =>
      let brailleW : Int := (dx : Int) * 2
      let brailleH : Int := (dy : Int) * 4
      let plotH := brailleH - 8
      let plotW := brailleW - 8
      let maxBin : Int := Max.max 1 (h.bins.foldl (fun a v => Max.max a v) 0)
      let barWidth : Int := Max.max 1 (plotW.tdiv (h.bins.length : Int))
      let gap : Int := if 2 < barWidth then 1 else 0
      let height : Nat := (v.toNat * plotH.toNat) / maxBin.toNat
      let startX := 4 + (i : Int) * barWidth
      barDots brailleW (brailleH - 4) startX (barWidth - gap).toNat height (h.binColor i)

/-- All `setDot` calls of one `Histogram.Draw` pass, bins in index
order (source loop `for i, v := range h.bins`). -/
def Histogram.DrawCalls (h : Histogram) (dx dy : Nat) : List DotCall :=
  (List.range h.bins.length).flatMap (fun i => h.binDots dx dy i)

lemma barDots_color (brailleW originY startX : Int) (widthN heightN : Nat)
    (col : Color) (c : DotCall) (hc : c ∈ barDots brailleW originY startX widthN heightN col) :
    c.2.2 = col := by
  unfold barDots at hc
  rcases List.mem_flatMap.mp hc with ⟨x, -, hx⟩
  rcases List.mem_filterMap.mp hx with ⟨y, -, hy⟩
  split at hy
  · injection hy with hy
    subst hy
    rfl
  · cases hy

/-- Every call a bin emits carries that bin's color selection. -/
lemma binDots_color (h : Histogram) (dx dy i : Nat) (c : DotCall)
    (hc : c ∈ h.binDots dx dy i) :
    c.2.2 = h.binColor i := by
  unfold Histogram.binDots at hc
  split at hc
  · simp at hc
  · split at hc
    · simp at hc
    · exact barDots_color _ _ _ _ _ _ _ hc

lemma drawCalls_mem (h : Histogram) (dx dy : Nat) (c : DotCall) :
    c ∈ h.DrawCalls dx dy ↔ ∃ i, i < h.bins.length ∧ c ∈ h.binDots dx dy i := by
  unfold Histogram.DrawCalls
  rw [List.mem_flatMap]
  constructor
  · rintro ⟨i, hi, hc⟩
    exact ⟨i, List.mem_range.mp hi, hc⟩
  · rintro ⟨i, hi, hc⟩
    exact ⟨i, List.mem_range.mpr hi, hc⟩

/-- If every call that targets `p` carries color `col`, then the final
color of `p` is `col` once `p` is touched at all. -/
lemma lastColorAt_go_const (l : List DotCall) (p : Nat × Nat) (col : Color)
    (h : ∀ c ∈ l, cellOfCall c = p → c.2.2 = col) :
    ∀ acc : Option Color,
      l.foldl (fun acc c => if cellOfCall c = p then some c.2.2 else acc) acc =
        (if touchesCell l p then some col else acc) := by
  induction l with
  | nil =>
    intro acc
    simp [touchesCell]
  | cons c l ih =>
    intro acc
    have h' : ∀ c' ∈ l, cellOfCall c' = p → c'.2.2 = col :=
      fun c' hc' => h c' (by simp [hc'])
    by_cases hc : cellOfCall c = p
    · rw [List.foldl_cons, if_pos hc, ih h' (some c.2.2), h c (by simp) hc]
      simp [touchesCell, List.any_cons, hc]
    · rw [List.foldl_cons, if_neg hc, ih h' acc]
      have htc : touchesCell (c :: l) p = touchesCell l p := by
        simp [touchesCell, List.any_cons, hc]
      rw [htc]

lemma lastColorAt_const (l : List DotCall) (p : Nat × Nat) (col : Color)
    (hall : ∀ c ∈ l, cellOfCall c = p → c.2.2 = col)
    (htouch : touchesCell l p = true) :
    lastColorAt l p = some col := by
  rw [lastColorAt, lastColorAt_go_const l p col hall none, if_pos htouch]

/-- The histogram state set up by the repository's own histogram test:
bins [1, 2, 3, 4, 5], domain [0, 5], one label per bin, alert index 2. -/
def histSample : Histogram :=
  (Histogram.SetBins NewHistogram [1, 2, 3, 4, 5] 0 5 [0, 1, 2, 3, 4] 2).1

/-- C8 counterexample: on a 5×5-cell canvas (the widget's declared
minimum size), bin 2 of the test histogram paints cell (3, 2), yet the
cell's final color is the base bar color, not the alert color: bin 3's
bar shares the cell and is painted later, and the last writer wins. -/
theorem histogram_alert_cell_overwritten :
    ((3, 2) ∈ (histSample.binDots 5 5 2).map cellOfCall) ∧
    (applyDots (histSample.DrawCalls 5 5)).color (3, 2) = some histSample.barColor ∧
    histSample.barColor ≠ histSample.alertCol := by
  decide

/-- C8 amended: in the test histogram (bins [1,2,3,4,5], alert index 2),
on any canvas, a cell reached only by bin 2's dots ends with the alert
color, and a cell reached by some bin's dots but not by bin 2's ends
with the base bar color.  (A cell shared between bin 2 and a later bin
keeps the later bin's base color — the overlap the original claim
misses.) -/
theorem histogram_bin_cell_colors (dx dy : Nat) (p : Nat × Nat) :
    ((p ∈ (histSample.binDots dx dy 2).map cellOfCall) →
      (∀ j, j < 5 → j ≠ 2 → p ∉ (histSample.binDots dx dy j).map cellOfCall) →
      (applyDots (histSample.DrawCalls dx dy)).color p = some histSample.alertCol) ∧
    ((∃ j, j < 5 ∧ p ∈ (histSample.binDots dx dy j).map cellOfCall) →
      (p ∉ (histSample.binDots dx dy 2).map cellOfCall) →
      (applyDots (histSample.DrawCalls dx dy)).color p = some histSample.barColor) := by
  have hlen : histSample.bins.length = 5 := rfl
  have hcolor := applyDots_spec (histSample.DrawCalls dx dy) p
  constructor
  · intro hp2 hothers
    rcases List.mem_map.mp hp2 with ⟨c2, hc2mem, hc2cell⟩
    have htouch : touchesCell (histSample.DrawCalls dx dy) p = true := by
      rw [touchesCell, List.any_eq_true]
      refine ⟨c2, ?_, by simp [hc2cell]⟩
      exact (drawCalls_mem histSample dx dy c2).mpr ⟨2, by omega, hc2mem⟩
    have hall : ∀ c ∈ histSample.DrawCalls dx dy, cellOfCall c = p →
        c.2.2 = histSample.alertCol := by
      intro c hc hcell
      rcases (drawCalls_mem histSample dx dy c).mp hc with ⟨i, hi, hbin⟩
      rw [hlen] at hi
      by_cases h2 : i = 2
      · subst h2
        have := binDots_color histSample dx dy 2 c hbin
        rw [this]
        rfl
      · exact absurd (List.mem_map.mpr ⟨c, hbin, hcell⟩) (hothers i hi h2)
    rw [hcolor.2]
    exact lastColorAt_const _ p _ hall htouch
  · rintro ⟨j, hj, hpj⟩ hnot2
    rcases List.mem_map.mp hpj with ⟨cj, hcjmem, hcjcell⟩
    have htouch : touchesCell (histSample.DrawCalls dx dy) p = true := by
      rw [touchesCell, List.any_eq_true]
      refine ⟨cj, ?_, by simp [hcjcell]⟩
      exact (drawCalls_mem histSample dx dy cj).mpr ⟨j, by omega, hcjmem⟩
    have hall : ∀ c ∈ histSample.DrawCalls dx dy, cellOfCall c = p →
        c.2.2 = histSample.barColor := by
      intro c hc hcell
      rcases (drawCalls_mem histSample dx dy c).mp hc with ⟨i, hi, hbin⟩
      rw [hlen] at hi
      by_cases h2 : i = 2
      · subst h2
        exact absurd (List.mem_map.mpr ⟨c, hbin, hcell⟩) hnot2
      · have := binDots_color histSample dx dy i c hbin
        have hne : ¬ histSample.alertBin = (i : Int) := by
          show ¬ (2 : Int) = (i : Int)
          omega
        rw [this, Histogram.binColor, if_neg hne]
    rw [hcolor.2]
    exact lastColorAt_const _ p _ hall htouch

/-- Witness for C8 amended: on a 12×5-cell canvas, cell (5, 3) is
reached only by bin 2 and ends alert-colored; cell (3, 3) is reached
only by bin 1 and ends base-colored. -/
theorem histogram_bin_cell_colors_witness :
    (applyDots (histSample.DrawCalls 12 5)).color (5, 3) = some histSample.alertCol ∧
    (applyDots (histSample.DrawCalls 12 5)).color (3, 3) = some histSample.barColor := by
  constructor
  · exact (histogram_bin_cell_colors 12 5 (5, 3)).1 (by decide) (by decide)
  · exact (histogram_bin_cell_colors 12 5 (3, 3)).2 ⟨1, by decide, by decide⟩ (by decide)

/-! ### Funnel and Scatter draw passes, and draw idempotence -/

/-- Go's `int(x)` conversion of a real quantity: truncation toward
zero, over exact `ℚ`. -/
def goTrunc (q : ℚ) : Int :=
  if q < 0 then -(⌊-q⌋) else ⌊q⌋

/-- One `draw.BrailleLine` invocation: start dot, end dot, color. -/
abbrev LineOp := (Int × Int) × (Int × Int) × Color

/-- The braille line primitives one `Funnel.Draw` pass emits
(funnel.go lines 63-129): nothing when `total ≤ 0`; otherwise, per
segment, a horizontal line per scan-line of the segment's trapezoid,
with heights and widths interpolated exactly as in the source
(braille.ColMult = 2, braille.RowMult = 4; real arithmetic modelled
exactly over `ℚ`, Go `int` conversions and divisions truncated). -/
def Funnel.DrawOps (f : Funnel) (ar : Rect) : List LineOp :=
  if f.total ≤ 0 then []
  else
    let dx := ar.maxX - ar.minX
    let centerX := ar.minX * 2 + (dx * 2).tdiv 2
    let funnelHeight := (ar.maxY - ar.minY) * 4 - 2
    let topWidth := dx * 2 - 2
    let bottomWidth : Int := 5
    let res := f.values.enum.foldl (fun (st : Int × Int × List LineOp) (iv : Nat × Int) =>
      let currentY := st.1
      let cum := st.2.1
      let i := iv.1
      let value := iv.2
      let segH0 := goTrunc ((value : ℚ) / (f.total : ℚ) * (funnelHeight : ℚ))
      let segH := if segH0 < 1 then 1 else segH0
      let topProp : ℚ := (cum : ℚ) / (f.total : ℚ)
      let botProp : ℚ := ((cum + value : Int) : ℚ) / (f.total : ℚ)
      let ctw := goTrunc ((topWidth : ℚ) - ((topWidth - bottomWidth : Int) : ℚ) * topProp)
      let cbw := goTrunc ((topWidth : ℚ) - ((topWidth - bottomWidth : Int) : ℚ) * botProp)
      let col := f.colors.getD (i % f.colors.length) 0
      let seg := (List.range segH.toNat).map (fun (y : Nat) =>
        let lineProp : ℚ := (y : ℚ) / (segH : ℚ)
        let lineWidth := goTrunc ((ctw : ℚ) - ((ctw - cbw : Int) : ℚ) * lineProp)
        ((centerX - lineWidth.tdiv 2, currentY + (y : Int)),
         (centerX + lineWidth.tdiv 2, currentY + (y : Int)), col))
      (currentY + segH, cum + value, st.2.2 ++ seg))
      (ar.minY * 4 + 1, 0, ([] : List LineOp))
    res.2.2

/-- `Funnel.Draw`: the emitted primitives are a pure function of the
widget state and region, and the source writes no field of the widget
during a draw, so the state passes through unchanged. -/
def Funnel.Draw (f : Funnel) (ar : Rect) : List LineOp × Funnel :=
  (f.DrawOps ar, f)

/-- A scatter point (scatter.go lines 24-27); coordinates modelled
exactly over `ℚ`. -/
structure ScatterPoint where
  X : ℚ
  Y : ℚ
  deriving DecidableEq, Repr

/-- State of the `ScatterPlot` widget (scatter.go lines 16-22). -/
structure ScatterPlot where
  points : List ScatterPoint
  xLabel : Nat
  yLabel : Nat
  color : Color
  deriving DecidableEq, Repr

/-- The braille dots one `ScatterPlot.Draw` pass sets (scatter.go lines
46-172), in call order: the vertical axis, the horizontal axis, then
one dot per data point, normalized to the padded plot area, with the
source's bounds check; the ±MaxFloat64 sentinels of the min/max scan
are modelled by folding from the first point. -/
def ScatterPlot.DrawDots (s : ScatterPlot) (dx dy : Nat) : List (Nat × Nat) :=
  match s.points with
  | [] => []
  | p0 :: rest =>
    let minX := rest.foldl (fun a p => min a p.X) p0.X
    let maxX := rest.foldl (fun a p => max a p.X) p0.X
    let minY := rest.foldl (fun a p => min a p.Y) p0.Y
    let maxY := rest.foldl (fun a p => max a p.Y) p0.Y
    let maxX' := if maxX = minX then maxX + 1 else maxX
    let minX' := if maxX = minX then minX - 1 else minX
    let maxY' := if maxY = minY then maxY + 1 else maxY
    let minY' := if maxY = minY then minY - 1 else minY
    let brailleW : Int := (dx : Int) * 2
    let brailleH : Int := (dy : Int) * 4
    let plotW := brailleW - 8
    let plotH := brailleH - 8
    if plotW ≤ 0 ∨ plotH ≤ 0 then []
    else
      let originX : Int := 4
      let originY : Int := brailleH - 4
      let axisY := (List.range (originY - 4).toNat).map
        (fun k => ((4 : Nat), 4 + k))
      let axisX := (List.range (brailleW - 4 - 4).toNat).map
        (fun k => (4 + k, originY.toNat))
      let pts := (p0 :: rest).filterMap (fun p =>
        let xNorm := (p.X - minX') / (maxX' - minX')
        let yNorm := (p.Y - minY') / (maxY' - minY')
        let bx := originX + goTrunc (xNorm * (plotW : ℚ))
        let dotY := originY - goTrunc (yNorm * (plotH : ℚ))
        if 0 ≤ bx ∧ bx < brailleW ∧ 0 ≤ dotY ∧ dotY < brailleH then
          some (bx.toNat, dotY.toNat)
        else none)
      axisY ++ axisX ++ pts

/-- `ScatterPlot.Draw`: the dots are a pure function of the widget state
and region, and the source writes no field of the widget during a draw,
so the state passes through unchanged. -/
def ScatterPlot.Draw (s : ScatterPlot) (dx dy : Nat) : List (Nat × Nat) × ScatterPlot :=
  (s.DrawDots dx dy, s)

/-- `Histogram.Draw` at the `setDot`-call granularity: the calls are a
pure function of the widget state and region, and the source writes no
field of the widget during a draw, so the state passes through
unchanged. -/
def Histogram.Draw (h : Histogram) (dx dy : Nat) : List DotCall × Histogram :=
  (h.DrawCalls dx dy, h)

/-- C9: calling Draw twice in succession with unchanged widget state
and an unchanged canvas region produces the identical output both
times, and the second call leaves the state where the first put it —
for the Table (whose draw clamps the current page and rewrites the
button rectangles), the Funnel, the ScatterPlot and the Histogram; no
hidden internal counter changes the visual output between the calls. -/
theorem draw_twice_identical (t : Table) (ar : Rect) (f : Funnel) (arF : Rect)
    (s : ScatterPlot) (h : Histogram) (dx dy dxh dyh : Nat) :
    Table.Draw (Table.Draw t ar).2 ar = Table.Draw t ar ∧
    Funnel.Draw (Funnel.Draw f arF).2 arF = Funnel.Draw f arF ∧
    ScatterPlot.Draw (ScatterPlot.Draw s dx dy).2 dx dy = ScatterPlot.Draw s dx dy ∧
    Histogram.Draw (Histogram.Draw h dxh dyh).2 dxh dyh = Histogram.Draw h dxh dyh :=
  ⟨tableDraw_idem t ar, rfl, rfl, rfl⟩

end Datacmd
